import Mathlib

/-!
Verification of the access-ed-backend document chunking and RAG pipeline.

Python strings are modelled as `List Char` (`Str`), Python `int` as `Nat`
where the source only ever holds non-negative values, and float similarity
scores as `ℚ`.  Each Lean definition is a direct translation of the
correspondingly named function in the source; `while` loops become fuel
recursion, and `max(x - y, 0)` on ints becomes truncated `Nat` subtraction.
-/

/-- Python strings, modelled as lists of characters. -/
abbrev Str := List Char

/-- ASCII whitespace recognised by Python's `\s` (unicode spaces omitted;
all inputs considered here are ASCII). -/
def isPySpace (c : Char) : Bool :=
  c = ' ' || c = '\t' || c = '\n' || c = '\r' || c = '\x0b' || c = '\x0c'

/-- Python `\w` word characters (ASCII fragment). -/
def isWordCh (c : Char) : Bool := c.isAlphanum || c = '_'

/-- The character class `[A-Z]` used in the section-splitting patterns. -/
def isUpperAZ (c : Char) : Bool := 'A' ≤ c && c ≤ 'Z'

/-- The sentence-ending class `[.!?]`. -/
def isSentP (c : Char) : Bool := c = '.' || c = '!' || c = '?'

/-- Length of the leading run of characters satisfying `p`. -/
def runLen (p : Char → Bool) : Str → Nat
  | [] => 0
  | c :: rest => if p c then runLen p rest + 1 else 0

/-- Python `str.strip()`. -/
def pyStrip (l : Str) : Str :=
  ((l.dropWhile isPySpace).reverse.dropWhile isPySpace).reverse

/-- `re.sub(p+, rep, ·)` for a character class, as a character-by-character
state machine: `inRun` records whether the previous character was part of a
(already replaced) run. -/
def collapseGo (p : Char → Bool) (rep : Char) (inRun : Bool) : Str → Str
  | [] => []
  | c :: rest =>
    if p c then
      if inRun then collapseGo p rep true rest
      else rep :: collapseGo p rep true rest
    else c :: collapseGo p rep false rest

/-- Replace each maximal run of characters satisfying `p` by the single
character `rep`. -/
def collapseRuns (p : Char → Bool) (rep : Char) (l : Str) : Str :=
  collapseGo p rep false l

/-- The allow-list of `AutoChunker._clean_text`'s second substitution:
word characters, whitespace and basic punctuation. -/
def isAllowedCh (c : Char) : Bool :=
  isWordCh c || isPySpace c || c = '.' || c = ',' || c = '!' || c = '?' ||
  c = ';' || c = ':' || c = '(' || c = ')' || c = '-' || c = '\'' || c = '"'

/-- `AutoChunker._clean_text`: collapse whitespace runs to a single space,
collapse runs of disallowed characters to a single space, then strip. -/
def cleanText (t : Str) : Str :=
  pyStrip (collapseRuns (fun c => !isAllowedCh c) ' ' (collapseRuns isPySpace ' ' t))

/-- Length of the separator match (if any) starting at the current scan
position for the alternation `\n\n+|(?<=[.!?])\s+(?=[A-Z])|(?<=\w)\.\s+(?=[A-Z])|(?:\r?\n|\r)(?=[A-Z])`
used by `AutoChunker._split_into_sections`.  `prev` is the character before
the position (for the look-behinds).  Alternatives are tried in order, as
Python's regex engine does. -/
def sepMatchAt (prev : Option Char) (l : Str) : Option Nat :=
  let nl := runLen (fun c => c = '\n') l
  if 2 ≤ nl then some nl
  else
    let w := runLen isPySpace l
    let afterW := match (l.drop w).head? with
                  | some c => isUpperAZ c
                  | none => false
    if (match prev with | some p => isSentP p | none => false) && 1 ≤ w && afterW then
      some w
    else
      match l with
      | '.' :: rest =>
        let w2 := runLen isPySpace rest
        let afterW2 := match (rest.drop w2).head? with
                       | some c => isUpperAZ c
                       | none => false
        if (match prev with | some p => isWordCh p | none => false) && 1 ≤ w2 && afterW2 then
          some (1 + w2)
        else none
      | '\r' :: '\n' :: rest =>
        (match rest.head? with
         | some c => if isUpperAZ c then some 2 else none
         | none => none)
      | '\n' :: rest =>
        (match rest.head? with
         | some c => if isUpperAZ c then some 1 else none
         | none => none)
      | '\r' :: rest =>
        (match rest.head? with
         | some c => if isUpperAZ c then some 1 else none
         | none => none)
      | _ => none

/-- The scanning loop of `re.split` for the section pattern: walk the text,
cutting at every separator match and keeping the pieces in between.
`cur` accumulates the current piece in reverse. -/
def splitGo : Nat → Option Char → Str → Str → List Str → List Str
  | 0, _, l, cur, acc => acc ++ [cur.reverse ++ l]
  | fuel + 1, prev, l, cur, acc =>
    match l with
    | [] => acc ++ [cur.reverse]
    | c :: rest =>
      match sepMatchAt prev l with
      | some (k + 1) =>
        splitGo fuel ((l.take (k + 1)).getLast?) (l.drop (k + 1)) [] (acc ++ [cur.reverse])
      | _ => splitGo fuel (some c) rest (c :: cur) acc

/-- `re.split(pattern, text)` for the section-marker pattern.  Every scan
step consumes at least one character, so `text.length` fuel always reaches
the end of the text. -/
def splitPieces (text : Str) : List Str := splitGo text.length none text [] []

/-- Python `' '.join` on a list of strings. -/
def joinSpace : List Str → Str
  | [] => []
  | [x] => x
  | x :: xs => x ++ ' ' :: joinSpace xs

/-- The greedy merge loop at the end of `AutoChunker._split_into_sections`:
pack consecutive sections while the sum of their lengths stays within
`maxSize` (join spaces are not counted, exactly as in the source). -/
def mergeGo (maxSize : Nat) : List Str → List Str → Nat → List Str → List Str
  | [], cur, _, acc => if cur.isEmpty then acc else acc ++ [joinSpace cur]
  | s :: rest, cur, curLen, acc =>
    if curLen + s.length ≤ maxSize then
      mergeGo maxSize rest (cur ++ [s]) (curLen + s.length) acc
    else if cur.isEmpty then
      mergeGo maxSize rest [s] s.length acc
    else
      mergeGo maxSize rest [s] s.length (acc ++ [joinSpace cur])

/-- `AutoChunker._split_into_sections`: regex split, strip and drop empty
pieces, then greedily merge small neighbours. -/
def splitIntoSections (maxSize : Nat) (text : Str) : List Str :=
  mergeGo maxSize (((splitPieces text).map pyStrip).filter (fun s => !s.isEmpty)) [] 0 []

/-- `AutoChunker._find_sentence_boundary` as a state machine: `prevPunct`
records that the previous character was in `[.!?]`, `inRun` that the scan is
inside a whitespace run that started right after such a punctuation mark.
`best` ends up being the end position of the last match of `[.!?]\s+` (or
`-1` when there is none): a match's end is one past its last whitespace
character. -/
def fsbGo (pos : Nat) (best : Int) (prevPunct inRun : Bool) : Str → Int
  | [] => best
  | c :: rest =>
    if isPySpace c then
      if prevPunct || inRun then fsbGo (pos + 1) ((pos + 1 : Nat) : Int) false true rest
      else fsbGo (pos + 1) best false false rest
    else fsbGo (pos + 1) best (isSentP c) false rest

def findSentenceBoundary (t : Str) : Int := fsbGo 0 (-1) false false t

/-- `AutoChunker._find_word_boundary` as a state machine: start position of
the last match of `\s+` (first whitespace character of the last maximal
whitespace run), or `-1`. -/
def fwbGo (pos : Nat) (best : Int) (prevWs : Bool) : Str → Int
  | [] => best
  | c :: rest =>
    if isPySpace c then
      fwbGo (pos + 1) (if prevWs then best else ((pos : Nat) : Int)) true rest
    else fwbGo (pos + 1) best false rest

def findWordBoundary (t : Str) : Int := fwbGo 0 (-1) false t

/-- The chunker's configuration, exactly the three fields set by
`AutoChunker.__init__`. -/
structure AutoChunker where
  max_chunk_size : Nat
  min_chunk_size : Nat
  overlap_size : Nat
deriving DecidableEq, Repr

/-- `AutoChunker.__init__`: plain field assignment, no validation. -/
def autoChunkerInit (mx mn ov : Nat) : AutoChunker := AutoChunker.mk mx mn ov

/-- The `chunk_end` computation of one `AutoChunker._chunk_section` loop
iteration in the non-final case (`end < text_length`): prefer the last
sentence boundary in the `max_chunk_size + 50` look-ahead window, else the
last word boundary in the plain `max_chunk_size` window, else the hard
offset `end = start + max_chunk_size`. -/
def chunkCutEnd (c : AutoChunker) (s : Str) (start : Nat) : Nat :=
  if 0 < findSentenceBoundary ((s.drop start).take (c.max_chunk_size + 50)) then
    start + (findSentenceBoundary ((s.drop start).take (c.max_chunk_size + 50))).toNat
  else if findWordBoundary ((s.drop start).take c.max_chunk_size) ≤ 0 then
    start + c.max_chunk_size
  else
    start + (findWordBoundary ((s.drop start).take c.max_chunk_size)).toNat

/-- One iteration of the `while` loop of `AutoChunker._chunk_section` in the
non-final case: the emitted chunk `section[start:chunk_end]` and the next
cursor `max(chunk_end - overlap_size, 0)` (truncated `Nat` subtraction). -/
def chunkStep (c : AutoChunker) (s : Str) (start : Nat) : Str × Nat :=
  ((s.drop start).take (chunkCutEnd c s start - start),
   chunkCutEnd c s start - c.overlap_size)

/-- The `while` loop of `AutoChunker._chunk_section`, with explicit fuel;
`none` means the fuel ran out before the loop exited. -/
def chunkSectionGo (c : AutoChunker) (s : Str) : Nat → Nat → Option (List Str)
  | 0, start => if start < s.length then none else some []
  | fuel + 1, start =>
    if start < s.length then
      if s.length ≤ start + c.max_chunk_size then some [s.drop start]
      else
        match chunkSectionGo c s fuel (chunkStep c s start).2 with
        | some rest => some ((chunkStep c s start).1 :: rest)
        | none => none
    else some []

/-- `AutoChunker._chunk_section` (fuel-passing form). -/
def chunkSection (c : AutoChunker) (fuel : Nat) (s : Str) : Option (List Str) :=
  chunkSectionGo c s fuel 0

/-- Chunk metadata: `base` stands for the caller-supplied metadata payload
(carried through unchanged), plus the two keys `chunk_document` installs. -/
structure ChunkMeta where
  base : Nat
  chunk_index : Option Nat
  total_chunks : Option Nat
deriving DecidableEq, Repr

structure TextChunk where
  content : Str
  metadata : ChunkMeta
  size : Nat
deriving DecidableEq, Repr

/-- The per-section branch of `chunk_document`: a section within
`max_chunk_size` becomes one chunk, a larger one is broken down. -/
def sectionPieces (c : AutoChunker) (fuel : Nat) (sect : Str) : Option (List Str) :=
  if sect.length ≤ c.max_chunk_size then some [sect] else chunkSectionGo c sect fuel 0

def sectionsPieces (c : AutoChunker) (fuel : Nat) : List Str → Option (List Str)
  | [] => some []
  | s :: rest =>
    match sectionPieces c fuel s, sectionsPieces c fuel rest with
    | some a, some b => some (a ++ b)
    | _, _ => none

/-- The `enumerate` loop at the end of `chunk_document`: install
`chunk_index` and `total_chunks` into every chunk's metadata. -/
def setPositions (total : Nat) : Nat → List TextChunk → List TextChunk
  | _, [] => []
  | i, ch :: rest =>
    TextChunk.mk ch.content (ChunkMeta.mk ch.metadata.base (some i) (some total)) ch.size
      :: setPositions total (i + 1) rest

/-- `AutoChunker.chunk_document` (fuel-passing form): clean, split into
sections, chunk each section, attach position metadata. -/
def chunkDocument (c : AutoChunker) (fuel : Nat) (content : Str) (md : ChunkMeta) :
    Option (List TextChunk) :=
  let cleaned := cleanText content
  let sections := splitIntoSections c.max_chunk_size cleaned
  match sectionsPieces c fuel sections with
  | none => none
  | some pieces =>
    let chunks := pieces.map (fun p => TextChunk.mk p md p.length)
    some (setPositions chunks.length 0 chunks)

/-- A retrieved match as `rag_handler.py` sees it: a similarity `score`
(modelled in `ℚ`), whether the object has a `metadata` attribute, and the
metadata fields the handler reads (`.get` with default `''`). -/
structure RDoc where
  score : ℚ
  hasMeta : Bool
  content : Str
  source_url : Str
  title : Str
  query : Str
  source : Str

/-- Python `needle in hay` substring test. -/
def strIn (needle : Str) : Str → Bool
  | [] => needle.isEmpty
  | c :: t => needle.isPrefixOf (c :: t) || strIn needle t

/-- Python `str.lower()` (ASCII). -/
def lowerStr (s : Str) : Str := s.map Char.toLower

/-- Python `str.split('\n')` (keeps empty pieces). -/
def splitOnNl : Str → List Str
  | [] => [[]]
  | c :: rest =>
    if c = '\n' then [] :: splitOnNl rest
    else
      match splitOnNl rest with
      | p :: ps => (c :: p) :: ps
      | [] => [[c]]

/-- Python `'\n'.join`. -/
def joinNl : List Str → Str
  | [] => []
  | [x] => x
  | x :: xs => x ++ '\n' :: joinNl xs

/-- Python `'\n\n'.join`. -/
def joinNlNl : List Str → Str
  | [] => []
  | [x] => x
  | x :: xs => x ++ '\n' :: '\n' :: joinNlNl xs

/-- The line filter of `RAGHandler._prepare_context`: keep a line when its
strip is non-empty and it does not start with `Source URL:` or `Title:`. -/
def lineKept (line : Str) : Bool :=
  !(pyStrip line).isEmpty &&
  !("Source URL:".data.isPrefixOf line) && !("Title:".data.isPrefixOf line)

/-- The result dict of `RAGHandler._prepare_context`. -/
structure ContextData where
  content : Str
  source_urls : List Str
  source_titles : List Str
deriving DecidableEq

/-- The document loop of `RAGHandler._prepare_context`, carrying the
`seen_urls` set (as a list). -/
def prepGo : List RDoc → List Str → List Str × List Str × List Str
  | [], _ => ([], [], [])
  | d :: rest, seen =>
    if d.hasMeta && !d.content.isEmpty then
      let cleaned := (splitOnNl d.content).filter lineKept
      let ctxAdd : List Str := if cleaned.isEmpty then [] else [joinNl cleaned]
      if !d.source_url.isEmpty && !(seen.contains d.source_url) then
        let r := prepGo rest (d.source_url :: seen)
        (ctxAdd ++ r.1, d.source_url :: r.2.1,
         (if d.title.isEmpty then [] else [d.title]) ++ r.2.2)
      else
        let r := prepGo rest seen
        (ctxAdd ++ r.1, r.2.1, r.2.2)
    else prepGo rest seen

/-- `RAGHandler._prepare_context`. -/
def prepareContext (docs : List RDoc) : ContextData :=
  let r := prepGo docs []
  ContextData.mk (joinNlNl r.1) r.2.1 r.2.2

/-- The three topic-term buckets of `RAGHandler._check_relevance`. -/
def educationTerms : List Str :=
  ["learning", "student", "teach", "school", "classroom", "curriculum",
   "instruction", "class", "programming", "slides", "lecture", "course"].map String.data

def accessibilityTerms : List Str :=
  ["disability", "accessible", "accommodation", "modification", "support",
   "assistive", "access", "inclusive"].map String.data

def technologyTerms : List Str :=
  ["software", "tool", "device", "technology", "digital", "online",
   "platform", "computer", "python", "code"].map String.data

/-- `sum(1 for term in terms if term in content or term in query_lower)`. -/
def topicMatchCount (terms : List Str) (content qlow : Str) : Nat :=
  (terms.filter (fun t => strIn t content || strIn t qlow)).length

/-- Number of topic buckets with at least one term match for a document. -/
def docTopicsMatched (d : RDoc) : Nat :=
  let content := lowerStr d.content
  let q := lowerStr d.query
  (if 0 < topicMatchCount educationTerms content q then 1 else 0) +
  (if 0 < topicMatchCount accessibilityTerms content q then 1 else 0) +
  (if 0 < topicMatchCount technologyTerms content q then 1 else 0)

/-- The document loop of `RAGHandler._check_relevance`. -/
def crGo (threshold : ℚ) : List RDoc → Bool
  | [] => false
  | d :: rest =>
    if d.score ≤ threshold then crGo threshold rest
    else if 2 ≤ docTopicsMatched d && threshold < d.score then true
    else crGo threshold rest

/-- `RAGHandler._check_relevance` (threshold defaults to 0.6 at the call
signature; it is an explicit argument here). -/
def checkRelevance (docs : List RDoc) (threshold : ℚ) : Bool :=
  if docs.isEmpty then false else crGo threshold docs

/-- Keyword groups of `RAGHandler._is_general_chat` /
`RAGHandler._handle_general_chat`. -/
def greetingWords : List Str :=
  ["hello", "hi", "hey", "good morning", "good afternoon", "good evening"].map String.data

def gratitudeWords : List Str := ["thanks", "thank you", "appreciate"].map String.data

def farewellWords : List Str := ["bye", "goodbye", "see you", "farewell"].map String.data

/-- `RAGHandler._is_general_chat`: substring containment of any keyword in
the lowercased query. -/
def isGeneralChat (query : Str) : Bool :=
  (greetingWords ++ gratitudeWords ++ farewellWords).any (fun w => strIn w (lowerStr query))

/-- `RAGHandler._handle_general_chat`: canned reply chosen by keyword group. -/
def handleGeneralChat (query : Str) : Str :=
  let q := lowerStr query
  if greetingWords.any (fun w => strIn w q) then
    "Hello! How can I assist you with making education more accessible?".data
  else if gratitudeWords.any (fun w => strIn w q) then
    "You're welcome! Let me know if you have any other questions.".data
  else if farewellWords.any (fun w => strIn w q) then
    "Goodbye! Feel free to return if you need more assistance.".data
  else "How can I help you with accessibility-related questions?".data

/-- A conversation turn (`role`/`content` dict). -/
structure Turn where
  role : Str
  content : Str
deriving DecidableEq

/-- `RAGHandler._format_conversation_history`: empty for falsy input, else
the last five turns. -/
def formatHistory (hist : List Turn) : List Turn :=
  if hist.isEmpty then [] else hist.drop (hist.length - 5)

/-- The payload sent to the generation service. -/
structure Prompt where
  system : Str
  history : List Turn
  user : Str

/-- The generation collaborator's reply: HTTP status plus the contents of
`choices[i].message.content`. -/
structure GenReply where
  status : Nat
  choices : List Str

/-- Result of `generate_response`, instrumented with whether the generation
API was invoked (`requests.post` reached). -/
structure GenResult where
  text : Str
  apiCalled : Bool
deriving DecidableEq

def systemPromptText : Str :=
  ("You are an expert assistant helping educators make education accessible \n            for students with disabilities. Provide accurate, practical information while maintaining \n            a professional and direct tone. If the question is not directly related to educational accessibility,\n            try to connect it to accessibility principles or explain why it's outside your expertise.").data

def noDocsReply : Str :=
  ("I apologize, but I couldn't find any relevant information in my knowledge base. I'm specifically trained to help with educational accessibility topics. Could you please ask a question related to making education more accessible for students with disabilities?").data

def apiErrorReply : Str :=
  "I apologize, but I encountered an error connecting to the language model. Please try again later.".data

def formatErrorReply : Str :=
  "I apologize, but I encountered an error processing your request. Please try again.".data

/-- Python `s.split(marker)[0]`: the text before the first occurrence of
`marker` (the whole string when absent). -/
def splitFirstAt (marker : Str) : Str → Str
  | [] => []
  | c :: t => if marker.isPrefixOf (c :: t) then [] else c :: splitFirstAt marker t

/-- `RAGHandler.generate_response`, with the generation service as an
oracle `gen`.  The general-chat branch returns before any retrieval-data
processing or API call; the empty-docs branch returns the fixed apology;
otherwise the context is assembled, the prompt built, and `gen` invoked. -/
def generateResponse (gen : Prompt → GenReply) (query : Str) (docs : List RDoc)
    (hist : List Turn) : GenResult :=
  if isGeneralChat query then GenResult.mk (handleGeneralChat query) false
  else if docs.isEmpty then GenResult.mk noDocsReply false
  else
    let ctx := prepareContext docs
    let fh := formatHistory hist
    let citation : Str :=
      match ctx.source_urls.head? with
      | some u => "\n\nFor more information, visit: [".data ++ u ++ "](".data ++ u ++ ")".data
      | none => []
    let userPrompt :=
      "Context: ".data ++ ctx.content ++
      "\n\nBased on the above context, please answer the following question:\n".data ++
      query ++ "\n\nYour response must end exactly with this: ".data ++ citation
    let reply := gen (Prompt.mk systemPromptText fh userPrompt)
    if reply.status ≠ 200 then GenResult.mk apiErrorReply true
    else
      match reply.choices.head? with
      | some content =>
        if isGeneralChat query then
          GenResult.mk (splitFirstAt "\n\nFor more information".data content) true
        else GenResult.mk content true
      | none => GenResult.mk formatErrorReply true

/-- The retrieval collaborator's result; `matchList` models the
`matches` attribute (`matches` is a reserved token in Lean). -/
structure SearchResult where
  matchList : List RDoc

/-- The response model of the `/chat` endpoint in `main.py`.  It has no
`is_general_chat` field. -/
structure ChatResponse where
  response : Str
  sources : List Str
  source_urls : List Str
  source_titles : List Str

/-- The source-path collection loop of the `/chat` endpoint: first-seen
dedup of `metadata['source']` over the matches. -/
def collectSources : List RDoc → List Str → List Str
  | [], acc => acc
  | d :: rest, acc =>
    if d.hasMeta && !d.source.isEmpty && !(acc.contains d.source) then
      collectSources rest (acc ++ [d.source])
    else collectSources rest acc

/-- The `/chat` endpoint of `main.py`, with retrieval and generation as
oracles.  Returns the response plus two instrumentation flags:
`searchCalled` (the endpoint calls `pinecone_manager.search` unconditionally,
before `generate_response`) and `genCalled` (whether the generation API was
reached). -/
def chatEndpoint (search : Str → SearchResult) (gen : Prompt → GenReply)
    (message : Str) (history : List Turn) : ChatResponse × Bool × Bool :=
  let results := search message
  let genRes := generateResponse gen message results.matchList history
  let sources := collectSources results.matchList []
  let ctx := prepareContext results.matchList
  (ChatResponse.mk genRes.text sources ctx.source_urls ctx.source_titles, true, genRes.apiCalled)

/-- Modelled from the spec: `specFirstSeenDedup` is the spec's
"stable first-seen-wins dedup" on a url sequence, used to state the
first-occurrence ordering of `source_urls`. -/
def specFirstSeenDedup (seen : List Str) : List Str → List Str
  | [] => []
  | u :: rest =>
    if seen.contains u then specFirstSeenDedup seen rest
    else u :: specFirstSeenDedup (u :: seen) rest

/-- The url contributions `_prepare_context` considers: the `source_url` of
every match that has metadata, truthy content and a truthy url, in order. -/
def validUrls (docs : List RDoc) : List Str :=
  docs.filterMap (fun d =>
    if d.hasMeta && !d.content.isEmpty && !d.source_url.isEmpty then some d.source_url
    else none)

/-- Modelled from the spec: the CitationNormalizer of §4.4 is absent from
`src/` (only the spec describes it).  Generated text is modelled as a
sequence of segments: plain text, a bare URL, a markdown link
`[label](target)`, a parenthetical URL repetition `(url)`, and the bare-URL
citation sentence `For more information, visit: URL`. -/
inductive Seg
  | plain (s : Str)
  | bare (u : Str)
  | mdLink (label target : Str)
  | paren (u : Str)
  | cite (u : Str)
deriving DecidableEq

/-- Trailing sentence punctuation stripped when canonicalizing a URL
(spec §4.4 step 2). -/
def isTrailPunct (c : Char) : Bool :=
  c = '.' || c = ',' || c = '!' || c = '?' || c = ';' || c = ':'

/-- Modelled from the spec: canonical form of a URL — trailing sentence
punctuation stripped. -/
def canonUrl (u : Str) : Str := (u.reverse.dropWhile isTrailPunct).reverse

def isCiteSeg : Seg → Bool
  | Seg.cite _ => true
  | _ => false

def citeCount (l : List Seg) : Nat := l.countP (fun s => isCiteSeg s)

/-- Modelled from the spec: `normalize` (§4.4).  Scanning left to right:
a parenthetical or bare repetition immediately following a markdown link
to the same canonical URL is removed (steps 2–3); a bare-URL citation
sentence becomes a markdown link with the URL as label and target
(step 4); everything else is kept. -/
def normSegs : List Seg → List Seg
  | [] => []
  | Seg.mdLink lab t :: Seg.paren u :: rest =>
    if canonUrl u = canonUrl t then normSegs (Seg.mdLink lab t :: rest)
    else Seg.mdLink lab t :: normSegs (Seg.paren u :: rest)
  | Seg.mdLink lab t :: Seg.bare u :: rest =>
    if canonUrl u = canonUrl t then normSegs (Seg.mdLink lab t :: rest)
    else Seg.mdLink lab t :: normSegs (Seg.bare u :: rest)
  | Seg.cite u :: rest => normSegs (Seg.mdLink u u :: rest)
  | s :: rest => s :: normSegs rest
termination_by l => 2 * l.length + citeCount l
decreasing_by
  all_goals simp only [citeCount, List.countP_cons, List.length_cons, isCiteSeg]
  all_goals simp
  all_goals omega

/-- Whether an adjacent pair survives normalization unchanged. -/
def segPairOk : Seg → Seg → Bool
  | Seg.mdLink _ t, Seg.paren u => !(canonUrl u = canonUrl t)
  | Seg.mdLink _ t, Seg.bare u => !(canonUrl u = canonUrl t)
  | _, _ => true

def pairsOk : List Seg → Bool
  | a :: b :: rest => segPairOk a b && pairsOk (b :: rest)
  | _ => true

def noCite (l : List Seg) : Bool := l.all (fun s => !isCiteSeg s)

def isPlainSeg : Seg → Bool
  | Seg.plain _ => true
  | _ => false

/-! ## Helper lemmas -/

theorem chunkCutEnd_lt (c : AutoChunker) (hmx : 0 < c.max_chunk_size) (s : Str)
    (start : Nat) : start < chunkCutEnd c s start := by
  unfold chunkCutEnd
  split_ifs with h1 h2 <;> omega

theorem chunkCutEnd_ge_start (c : AutoChunker) (s : Str) (start : Nat) :
    start ≤ chunkCutEnd c s start := by
  unfold chunkCutEnd
  split_ifs <;> omega

theorem chunkStep_snd (c : AutoChunker) (s : Str) (start : Nat) :
    (chunkStep c s start).2 = chunkCutEnd c s start - c.overlap_size := rfl

theorem chunkSectionGo_isSome_of_zero_overlap (c : AutoChunker)
    (hov : c.overlap_size = 0) (hmx : 0 < c.max_chunk_size) (s : Str) :
    ∀ fuel start, s.length ≤ start + fuel → (chunkSectionGo c s fuel start).isSome := by
  intro fuel
  induction fuel with
  | zero =>
    intro start hle
    simp only [chunkSectionGo]
    rw [if_neg (by omega)]
    simp
  | succ fuel ih =>
    intro start hle
    simp only [chunkSectionGo]
    by_cases hlt : start < s.length
    · rw [if_pos hlt]
      by_cases hend : s.length ≤ start + c.max_chunk_size
      · rw [if_pos hend]; simp
      · rw [if_neg hend]
        have hnext : (chunkStep c s start).2 = chunkCutEnd c s start := by
          rw [chunkStep_snd, hov, Nat.sub_zero]
        have hadv := chunkCutEnd_lt c hmx s start
        have := ih (chunkStep c s start).2 (by omega)
        cases hgo : chunkSectionGo c s fuel (chunkStep c s start).2 with
        | none => rw [hgo] at this; simp at this
        | some rest => simp
    · rw [if_neg hlt]; simp

/-! ## Claim C1 -/

/-- Claim C1 (counterexample): with the valid configuration
`max_chunk_size = 5 > min_chunk_size = 0` and `5 > overlap_size = 3 ≥ 0`,
the input `"a. bcdefghij"` cleans to itself and forms a single section
longer than `max_chunk_size`; at cursor `0` the sliding-window loop of
`_chunk_section` computes the next cursor `max(3 - 3, 0) = 0`, so the
cursor does not advance (it is clamped to `0`, not to the previous
cursor) and `chunk_document` does not terminate (the fuel-indexed loop is
still unfinished after 30 iterations on a 12-character section). -/
theorem c1_cursor_stalls_counterexample :
    (chunkStep (autoChunkerInit 5 0 3) "a. bcdefghij".data 0).2 = 0 ∧
    0 < "a. bcdefghij".data.length ∧
    splitIntoSections 5 (cleanText "a. bcdefghij".data) = ["a. bcdefghij".data] ∧
    chunkDocument (autoChunkerInit 5 0 3) 30 "a. bcdefghij".data
      (ChunkMeta.mk 0 none none) = none := by
  refine ⟨by decide, by decide, by decide, by decide⟩

/-- Claim C1 (amended): the cursor is set to
`max(cut_position - overlap_size, 0)` — clamped to `0`, not to the previous
cursor — so the loop need not advance and `chunk_document` need not
terminate.  Termination does hold whenever `overlap_size = 0` (with any
positive `max_chunk_size`): every loop iteration then advances the cursor,
so fuel exceeding every section's length completes `chunk_document`. -/
theorem c1_terminates_with_zero_overlap (c : AutoChunker)
    (hov : c.overlap_size = 0) (hmx : 0 < c.max_chunk_size)
    (fuel : Nat) (content : Str) (md : ChunkMeta)
    (hfuel : ∀ sect ∈ splitIntoSections c.max_chunk_size (cleanText content),
      sect.length ≤ fuel) :
    (chunkDocument c fuel content md).isSome := by
  unfold chunkDocument
  have hsp : (sectionsPieces c fuel
      (splitIntoSections c.max_chunk_size (cleanText content))).isSome := by
    revert hfuel
    generalize splitIntoSections c.max_chunk_size (cleanText content) = sects
    intro hfuel
    induction sects with
    | nil => simp [sectionsPieces]
    | cons s rest ih =>
      have h1 : (sectionPieces c fuel s).isSome := by
        unfold sectionPieces
        split_ifs with hle
        · simp
        · exact chunkSectionGo_isSome_of_zero_overlap c hov hmx s fuel 0
            (by have := hfuel s (by simp); omega)
      have h2 := ih (fun t ht => hfuel t (by simp [ht]))
      simp only [sectionsPieces]
      cases hm1 : sectionPieces c fuel s with
      | none => rw [hm1] at h1; simp at h1
      | some a =>
        cases hm2 : sectionsPieces c fuel rest with
        | none => rw [hm2] at h2; simp at h2
        | some b => simp
  dsimp only
  cases hsp2 : sectionsPieces c fuel
      (splitIntoSections c.max_chunk_size (cleanText content)) with
  | none => rw [hsp2] at hsp; simp at hsp
  | some pieces => simp

/-- Claim C1 witness: the zero-overlap configuration `(5, 0, 0)` finishes
chunking `"abcd efgh ijkl mnop qrs"` with fuel 30. -/
theorem c1_terminates_with_zero_overlap_witness :
    (chunkDocument (autoChunkerInit 5 0 0) 30 "abcd efgh ijkl mnop qrs".data
      (ChunkMeta.mk 0 none none)).isSome :=
  c1_terminates_with_zero_overlap (autoChunkerInit 5 0 0) rfl (by decide) 30 _ _
    (by decide)

/-! ## Claim C5 -/

/-- Claim C5 (counterexample): constructing a chunker with
`max_chunk_size = 5 ≤ min_chunk_size = 7` (and `overlap_size = 3`) is not
rejected: `__init__` returns an ordinary chunker with exactly those fields,
and `chunk_document` then runs on it without any configuration error. -/
theorem c5_no_validation_counterexample :
    autoChunkerInit 5 7 3 = AutoChunker.mk 5 7 3 ∧
    (autoChunkerInit 5 7 3).max_chunk_size ≤ (autoChunkerInit 5 7 3).min_chunk_size ∧
    chunkDocument (autoChunkerInit 5 7 3) 30 "abc".data (ChunkMeta.mk 0 none none) =
      some [TextChunk.mk "abc".data (ChunkMeta.mk 0 (some 0) (some 1)) 3] := by
  refine ⟨rfl, by decide, by decide⟩

/-- Claim C5 (amended): `AutoChunker.__init__` performs no validation at
all: any bounds, including `max_chunk_size ≤ min_chunk_size` or
`overlap_size ≥ max_chunk_size`, are accepted verbatim as the chunker's
configuration. -/
theorem c5_init_accepts_any_bounds (mx mn ov : Nat) :
    autoChunkerInit mx mn ov = AutoChunker.mk mx mn ov ∧
    (autoChunkerInit mx mn ov).max_chunk_size = mx ∧
    (autoChunkerInit mx mn ov).min_chunk_size = mn ∧
    (autoChunkerInit mx mn ov).overlap_size = ov :=
  ⟨rfl, rfl, rfl, rfl⟩

/-! ## Claim C4 -/

/-- Claim C4 (counterexample): for the query `"hello"` the `/chat` endpoint
still performs retrieval (the search collaborator is invoked,
unconditionally, before `generate_response`), and sources extracted from
the retrieval results are attached to the response — here `"doc.txt"` —
even though the response text is the canned greeting and no generation
call is made. -/
theorem c4_retrieval_still_runs_counterexample :
    (chatEndpoint
        (fun _ => SearchResult.mk
          [RDoc.mk 1 true "Some body".data "http://x".data "T".data [] "doc.txt".data])
        (fun _ => GenReply.mk 200 ["ans".data]) "hello".data []).2.1 = true ∧
    (chatEndpoint
        (fun _ => SearchResult.mk
          [RDoc.mk 1 true "Some body".data "http://x".data "T".data [] "doc.txt".data])
        (fun _ => GenReply.mk 200 ["ans".data]) "hello".data []).1.sources =
      ["doc.txt".data] ∧
    (chatEndpoint
        (fun _ => SearchResult.mk
          [RDoc.mk 1 true "Some body".data "http://x".data "T".data [] "doc.txt".data])
        (fun _ => GenReply.mk 200 ["ans".data]) "hello".data []).1.response =
      "Hello! How can I assist you with making education more accessible?".data := by
  refine ⟨by decide, by decide, by decide⟩

/-- Claim C4 (amended): for the query `"hello"`, whatever the retrieval and
generation collaborators return, the response text is the fixed canned
greeting and the generation service is never invoked; the vector index,
however, is always queried first (the endpoint has no pre-retrieval
short-circuit), and the response model carries no `is_general_chat`
field. -/
theorem c4_hello_greeting_no_generation (search : Str → SearchResult)
    (gen : Prompt → GenReply) (hist : List Turn) :
    (chatEndpoint search gen "hello".data hist).1.response =
      "Hello! How can I assist you with making education more accessible?".data ∧
    (chatEndpoint search gen "hello".data hist).2.2 = false ∧
    (chatEndpoint search gen "hello".data hist).2.1 = true := by
  have hg : isGeneralChat "hello".data = true := by decide
  refine ⟨?_, ?_, rfl⟩
  · show (generateResponse gen "hello".data (search "hello".data).matchList hist).text = _
    unfold generateResponse
    rw [if_pos hg]
    decide
  · show (generateResponse gen "hello".data (search "hello".data).matchList hist).apiCalled = false
    unfold generateResponse
    rw [if_pos hg]

/-! ## More helper lemmas -/

theorem setPositions_length (total : Nat) :
    ∀ (l : List TextChunk) (i : Nat), (setPositions total i l).length = l.length := by
  intro l
  induction l with
  | nil => intro i; rfl
  | cons ch rest ih => intro i; simp [setPositions, ih]

theorem setPositions_get (total : Nat) :
    ∀ (l : List TextChunk) (i j : Nat) (h : j < (setPositions total i l).length),
      ((setPositions total i l).get ⟨j, h⟩).metadata.chunk_index = some (i + j) ∧
      ((setPositions total i l).get ⟨j, h⟩).metadata.total_chunks = some total := by
  intro l
  induction l with
  | nil => intro i j h; simp [setPositions] at h
  | cons ch rest ih =>
    intro i j h
    cases j with
    | zero => simp [setPositions]
    | succ j =>
      have h' : j < (setPositions total (i + 1) rest).length := by
        simpa [setPositions] using h
      have := ih (i + 1) j h'
      simp only [setPositions, List.get_cons_succ]
      refine ⟨?_, this.2⟩
      rw [this.1]
      congr 1
      omega

theorem mem_setPositions (total : Nat) :
    ∀ (l : List TextChunk) (i : Nat) (ch : TextChunk), ch ∈ setPositions total i l →
      ∃ ch0 ∈ l, ch.content = ch0.content ∧ ch.size = ch0.size := by
  intro l
  induction l with
  | nil => intro i ch h; simp [setPositions] at h
  | cons c0 rest ih =>
    intro i ch h
    simp only [setPositions, List.mem_cons] at h
    rcases h with h | h
    · exact ⟨c0, by simp, by rw [h], by rw [h]⟩
    · obtain ⟨ch0, hm, hc, hs⟩ := ih (i + 1) ch h
      exact ⟨ch0, by simp [hm], hc, hs⟩

theorem fsbGo_le : ∀ (l : Str) (pos : Nat) (best : Int) (pp ir : Bool),
    best ≤ (pos : Int) + l.length → fsbGo pos best pp ir l ≤ (pos : Int) + l.length
  | [], pos, best, pp, ir, h => by simpa [fsbGo] using h
  | c :: rest, pos, best, pp, ir, h => by
    simp only [List.length_cons] at h ⊢
    simp only [fsbGo]
    split_ifs with h1 h2
    · exact le_trans
        (fsbGo_le rest (pos + 1) ((pos + 1 : Nat) : Int) false true (by push_cast; omega))
        (by push_cast; omega)
    · exact le_trans
        (fsbGo_le rest (pos + 1) best false false (by push_cast at h ⊢; omega))
        (by push_cast; omega)
    · exact le_trans
        (fsbGo_le rest (pos + 1) best (isSentP c) false (by push_cast at h ⊢; omega))
        (by push_cast; omega)

theorem findSentenceBoundary_le (t : Str) : findSentenceBoundary t ≤ (t.length : Int) := by
  have := fsbGo_le t 0 (-1) false false (by push_cast; omega)
  simpa [findSentenceBoundary] using this

theorem fwbGo_le : ∀ (l : Str) (pos : Nat) (best : Int) (pw : Bool),
    best ≤ (pos : Int) + l.length → fwbGo pos best pw l ≤ (pos : Int) + l.length
  | [], pos, best, pw, h => by simpa [fwbGo] using h
  | c :: rest, pos, best, pw, h => by
    simp only [List.length_cons] at h ⊢
    simp only [fwbGo]
    split_ifs with h1 h2
    · exact le_trans
        (fwbGo_le rest (pos + 1) best true (by push_cast at h ⊢; omega))
        (by push_cast; omega)
    · exact le_trans
        (fwbGo_le rest (pos + 1) ((pos : Nat) : Int) true (by push_cast; omega))
        (by push_cast; omega)
    · exact le_trans
        (fwbGo_le rest (pos + 1) best false (by push_cast at h ⊢; omega))
        (by push_cast; omega)

theorem findWordBoundary_le (t : Str) : findWordBoundary t ≤ (t.length : Int) := by
  have := fwbGo_le t 0 (-1) false (by push_cast; omega)
  simpa [findWordBoundary] using this

theorem chunkCutEnd_le (c : AutoChunker) (s : Str) (start : Nat) :
    chunkCutEnd c s start ≤ start + c.max_chunk_size + 50 := by
  unfold chunkCutEnd
  split_ifs with h1 h2
  · have hb := findSentenceBoundary_le ((s.drop start).take (c.max_chunk_size + 50))
    have hlen : ((s.drop start).take (c.max_chunk_size + 50)).length ≤ c.max_chunk_size + 50 := by
      rw [List.length_take]; omega
    omega
  · omega
  · have hb := findWordBoundary_le ((s.drop start).take c.max_chunk_size)
    have hlen : ((s.drop start).take c.max_chunk_size).length ≤ c.max_chunk_size := by
      rw [List.length_take]; omega
    omega

theorem chunkSectionGo_lengths (c : AutoChunker) (s : Str) :
    ∀ (fuel start : Nat) (out : List Str), chunkSectionGo c s fuel start = some out →
      ∀ p ∈ out, p.length ≤ c.max_chunk_size + 50 := by
  intro fuel
  induction fuel with
  | zero =>
    intro start out h p hp
    by_cases h1 : start < s.length
    · simp only [chunkSectionGo, if_pos h1] at h
      exact Option.noConfusion h
    · simp only [chunkSectionGo, if_neg h1] at h
      rw [Option.some_inj] at h
      subst h
      simp at hp
  | succ fuel ih =>
    intro start out h p hp
    simp only [chunkSectionGo] at h
    split_ifs at h with h1 h2
    · rw [Option.some_inj] at h; subst h
      simp only [List.mem_singleton] at hp; subst hp
      rw [List.length_drop]; omega
    · cases hgo : chunkSectionGo c s fuel (chunkStep c s start).2 with
      | none => rw [hgo] at h; exact absurd h (by simp)
      | some rest =>
        rw [hgo, Option.some_inj] at h; subst h
        rcases List.mem_cons.mp hp with hp | hp
        · subst hp
          show ((s.drop start).take (chunkCutEnd c s start - start)).length ≤ _
          rw [List.length_take]
          have := chunkCutEnd_le c s start
          omega
        · exact ih (chunkStep c s start).2 rest hgo p hp
    · rw [Option.some_inj] at h; subst h; simp at hp

theorem sectionsPieces_lengths (c : AutoChunker) (fuel : Nat) :
    ∀ (sects : List Str) (pieces : List Str), sectionsPieces c fuel sects = some pieces →
      ∀ p ∈ pieces, p.length ≤ c.max_chunk_size + 50 := by
  intro sects
  induction sects with
  | nil =>
    intro pieces h p hp
    simp only [sectionsPieces, Option.some_inj] at h; subst h; simp at hp
  | cons s rest ih =>
    intro pieces h p hp
    simp only [sectionsPieces] at h
    cases hm1 : sectionPieces c fuel s with
    | none => rw [hm1] at h; exact absurd h (by simp)
    | some a =>
      cases hm2 : sectionsPieces c fuel rest with
      | none => rw [hm1, hm2] at h; exact absurd h (by simp)
      | some b =>
        rw [hm1, hm2, Option.some_inj] at h; subst h
        rcases List.mem_append.mp hp with hp | hp
        · unfold sectionPieces at hm1
          split_ifs at hm1 with hle
          · rw [Option.some_inj] at hm1; subst hm1
            simp only [List.mem_singleton] at hp; subst hp
            omega
          · exact chunkSectionGo_lengths c s fuel 0 a hm1 p hp
        · exact ih b hm2 p hp

theorem chunkSectionGo_join (c : AutoChunker) (hov : c.overlap_size = 0) (s : Str) :
    ∀ (fuel start : Nat) (out : List Str), chunkSectionGo c s fuel start = some out →
      out.flatten = s.drop start := by
  intro fuel
  induction fuel with
  | zero =>
    intro start out h
    by_cases h1 : start < s.length
    · simp only [chunkSectionGo, if_pos h1] at h
      exact Option.noConfusion h
    · simp only [chunkSectionGo, if_neg h1] at h
      rw [Option.some_inj] at h
      subst h
      rw [List.drop_eq_nil_of_le (by omega)]
      rfl
  | succ fuel ih =>
    intro start out h
    simp only [chunkSectionGo] at h
    split_ifs at h with h1 h2
    · rw [Option.some_inj] at h; subst h
      simp
    · cases hgo : chunkSectionGo c s fuel (chunkStep c s start).2 with
      | none => rw [hgo] at h; exact absurd h (by simp)
      | some rest =>
        rw [hgo, Option.some_inj] at h; subst h
        have hnext : (chunkStep c s start).2 = chunkCutEnd c s start := by
          rw [chunkStep_snd, hov, Nat.sub_zero]
        have hrest := ih (chunkStep c s start).2 rest hgo
        rw [hnext] at hrest
        have hse : start ≤ chunkCutEnd c s start := chunkCutEnd_ge_start c s start
        show (s.drop start).take (chunkCutEnd c s start - start) ++ rest.flatten = s.drop start
        rw [hrest]
        have hdd : s.drop (chunkCutEnd c s start) =
            (s.drop start).drop (chunkCutEnd c s start - start) := by
          rw [List.drop_drop]
          congr 1
          omega
        rw [hdd, List.take_append_drop]
    · rw [Option.some_inj] at h; subst h
      rw [List.flatten_nil, Eq.comm, List.drop_eq_nil_of_le (by omega)]

/-! ## Claim C7 -/

/-- Claim C7: whenever `chunk_document` produces a chunk list, the
`chunk_index` metadata values form the contiguous range `0..N-1` in
document order and every chunk's `total_chunks` equals the list length. -/
theorem c7_chunk_indices (c : AutoChunker) (fuel : Nat) (content : Str) (md : ChunkMeta)
    (chunks : List TextChunk) (h : chunkDocument c fuel content md = some chunks)
    (i : Nat) (hi : i < chunks.length) :
    (chunks.get ⟨i, hi⟩).metadata.chunk_index = some i ∧
    (chunks.get ⟨i, hi⟩).metadata.total_chunks = some chunks.length := by
  unfold chunkDocument at h
  dsimp only at h
  cases hsp : sectionsPieces c fuel (splitIntoSections c.max_chunk_size (cleanText content)) with
  | none => rw [hsp] at h; exact absurd h (by simp)
  | some pieces =>
    rw [hsp] at h
    rw [Option.some_inj] at h
    subst h
    have hlen := setPositions_length
      (pieces.map fun p => TextChunk.mk p md p.length).length
      (pieces.map fun p => TextChunk.mk p md p.length) 0
    have := setPositions_get
      (pieces.map fun p => TextChunk.mk p md p.length).length
      (pieces.map fun p => TextChunk.mk p md p.length) 0 i hi
    refine ⟨?_, ?_⟩
    · rw [this.1]; congr 1; omega
    · rw [this.2]; congr 1; omega

def sampleDoc : Str := "Aaaaaaaaaa. Bb. Ccccccccc".data

def sampleChunks : List TextChunk :=
  [TextChunk.mk "Aaaaaaaaaa".data (ChunkMeta.mk 0 (some 0) (some 3)) 10,
   TextChunk.mk "Bb".data (ChunkMeta.mk 0 (some 1) (some 3)) 2,
   TextChunk.mk "Ccccccccc".data (ChunkMeta.mk 0 (some 2) (some 3)) 9]

/-- Claim C7 witness: the three chunks of a concrete document carry
`chunk_index = 1` at position 1 and `total_chunks = 3` everywhere. -/
theorem c7_chunk_indices_witness :
    (sampleChunks.get ⟨1, by decide⟩).metadata.chunk_index = some 1 ∧
    (sampleChunks.get ⟨1, by decide⟩).metadata.total_chunks = some sampleChunks.length :=
  c7_chunk_indices (autoChunkerInit 10 5 0) 40 sampleDoc (ChunkMeta.mk 0 none none)
    sampleChunks (by decide) 1 (by decide)

/-! ## Claim C2 -/

/-- Claim C2 (counterexample): with the valid configuration `(10, 5, 0)`
the document `"Aaaaaaaaaa. Bb. Ccccccccc"` produces three chunks of sizes
`10, 2, 9`; the chunk at index 1 has size `2 < min_chunk_size = 5` and is
not a final remainder (two chunks follow it is false — one chunk follows
it), so an undersized chunk occurs in a non-final position. -/
theorem c2_undersized_nonfinal_counterexample :
    chunkDocument (autoChunkerInit 10 5 0) 40 sampleDoc (ChunkMeta.mk 0 none none) =
      some sampleChunks ∧
    (sampleChunks.get ⟨1, by decide⟩).size < (autoChunkerInit 10 5 0).min_chunk_size ∧
    1 + 1 < sampleChunks.length :=
  ⟨by decide, by decide, by decide⟩

/-- Claim C2 (amended): every chunk produced by `chunk_document` satisfies
`size = len(content)` and `size ≤ max_chunk_size + 50`, but chunks smaller
than `min_chunk_size` can occur at any position, not only as a final
remainder (`min_chunk_size` is advisory). -/
theorem c2_size_bound (c : AutoChunker) (fuel : Nat) (content : Str) (md : ChunkMeta)
    (chunks : List TextChunk) (h : chunkDocument c fuel content md = some chunks) :
    ∀ ch ∈ chunks, ch.size = ch.content.length ∧ ch.size ≤ c.max_chunk_size + 50 := by
  unfold chunkDocument at h
  dsimp only at h
  cases hsp : sectionsPieces c fuel (splitIntoSections c.max_chunk_size (cleanText content)) with
  | none => rw [hsp] at h; exact absurd h (by simp)
  | some pieces =>
    rw [hsp] at h
    rw [Option.some_inj] at h
    subst h
    intro ch hch
    obtain ⟨ch0, hch0, hco, hsz⟩ := mem_setPositions _ _ _ ch hch
    obtain ⟨p, hp, hpe⟩ := List.mem_map.mp hch0
    subst hpe
    refine ⟨by rw [hsz, hco], ?_⟩
    rw [hsz]
    exact sectionsPieces_lengths c fuel _ pieces hsp p hp

/-- Claim C2 witness: the size bound holds on the concrete chunk at index 1
of the sample document. -/
theorem c2_size_bound_witness :
    (sampleChunks.get ⟨1, by decide⟩).size =
      (sampleChunks.get ⟨1, by decide⟩).content.length ∧
    (sampleChunks.get ⟨1, by decide⟩).size ≤ (autoChunkerInit 10 5 0).max_chunk_size + 50 :=
  c2_size_bound (autoChunkerInit 10 5 0) 40 sampleDoc (ChunkMeta.mk 0 none none)
    sampleChunks (by decide) (sampleChunks.get ⟨1, by decide⟩) (by decide)

/-! ## Claim C6 -/

/-- Claim C6 (counterexample): with the valid configuration `(10, 0, 0)` the
document `"Ab. Cd"` (already in normalized form: `cleanText` fixes it) is
chunked into the single chunk `"Ab Cd"`; with `overlap_size = 0`, removing
trailing overlap characters removes nothing, so the claimed reconstruction
is the chunk itself, which differs from the normalized source text — the
section splitter consumed the sentence period `". "`. -/
theorem c6_period_lost_counterexample :
    cleanText "Ab. Cd".data = "Ab. Cd".data ∧
    chunkDocument (autoChunkerInit 10 0 0) 40 "Ab. Cd".data (ChunkMeta.mk 0 none none) =
      some [TextChunk.mk "Ab Cd".data (ChunkMeta.mk 0 (some 0) (some 1)) 5] ∧
    ("Ab Cd".data : Str) ≠ "Ab. Cd".data :=
  ⟨by decide, by decide, by decide⟩

/-- Claim C6 (amended): reconstruction holds within a single oversized
section: with `overlap_size = 0` (so that no characters repeat between
chunks) the concatenation of the chunks `_chunk_section` produces is
exactly the section.  Across sections no such identity holds, because the
section splitter consumes `". "` separators. -/
theorem c6_section_chunks_reconstruct (c : AutoChunker) (hov : c.overlap_size = 0)
    (s : Str) (fuel : Nat) (out : List Str) (h : chunkSectionGo c s fuel 0 = some out) :
    out.flatten = s := by
  have := chunkSectionGo_join c hov s fuel 0 out h
  simpa using this

/-- Claim C6 witness: the chunks of a concrete 23-character section under
configuration `(5, 0, 0)` concatenate back to the section. -/
theorem c6_section_chunks_reconstruct_witness :
    (["abcd".data, " efgh".data, " ijkl".data, " mnop".data, " qrs".data] : List Str).flatten =
      "abcd efgh ijkl mnop qrs".data :=
  c6_section_chunks_reconstruct (autoChunkerInit 5 0 0) rfl
    "abcd efgh ijkl mnop qrs".data 30
    ["abcd".data, " efgh".data, " ijkl".data, " mnop".data, " qrs".data] (by decide)

/-! ## Claim C3 -/

/-- Claim C3 (counterexample): with two matches scoring `0.4` and `0.55`
against threshold `0.6`, the relevance gate (`_check_relevance`) does
return `false` — but `generate_response` never consults it: for a
non-general-chat query with this non-empty match list the generation API is
still invoked, instead of an out-of-scope outcome. -/
theorem c3_gate_not_consulted_counterexample :
    checkRelevance
      [RDoc.mk (2/5) true "alpha".data "u".data [] [] [],
       RDoc.mk (11/20) true "beta".data "u".data [] [] []] (3/5) = false ∧
    (generateResponse (fun _ => GenReply.mk 200 ["answer".data])
      "What accommodations help students?".data
      [RDoc.mk (2/5) true "alpha".data "u".data [] [] [],
       RDoc.mk (11/20) true "beta".data "u".data [] [] []] []).apiCalled = true := by
  constructor
  · unfold checkRelevance
    rw [if_neg (by simp)]
    simp only [crGo]
    rw [if_pos (by show (2:ℚ)/5 ≤ 3/5; norm_num),
        if_pos (by show (11:ℚ)/20 ≤ 3/5; norm_num)]
  · decide

/-- Claim C3 (amended): the permissive reading of the gate is correct —
`_check_relevance` returns `false` (without raising) whenever every match's
score is at or below the threshold — but `generate_response` never invokes
the gate: for every non-general-chat query with a non-empty match list it
proceeds to the generation call regardless of scores; the out-of-scope
decline is produced only when the match list is empty. -/
theorem c3_gate_permissive_but_unused :
    (∀ (docs : List RDoc) (threshold : ℚ), (∀ d ∈ docs, d.score ≤ threshold) →
       checkRelevance docs threshold = false) ∧
    (∀ (gen : Prompt → GenReply) (q : Str) (docs : List RDoc) (hist : List Turn),
       isGeneralChat q = false → docs ≠ [] →
       (generateResponse gen q docs hist).apiCalled = true) := by
  constructor
  · intro docs threshold hall
    have hgo : ∀ (l : List RDoc), (∀ d ∈ l, d.score ≤ threshold) → crGo threshold l = false := by
      intro l
      induction l with
      | nil => intro _; rfl
      | cons d rest ih =>
        intro hl
        simp only [crGo]
        rw [if_pos (hl d (by simp))]
        exact ih (fun x hx => hl x (by simp [hx]))
    unfold checkRelevance
    split_ifs with he
    · rfl
    · exact hgo docs hall
  · intro gen q docs hist hq hne
    unfold generateResponse
    rw [if_neg (by simp [hq]),
        if_neg (by cases docs with | nil => exact absurd rfl hne | cons a l => simp)]
    dsimp only
    split_ifs <;> first | rfl | (split <;> rfl)

/-- Claim C3 witness: at threshold `0.6` and scores `0.4`, `0.55` the gate
rejects, and the generation call still goes out for a concrete in-scope
query. -/
theorem c3_gate_permissive_but_unused_witness :
    checkRelevance
      [RDoc.mk (2/5) true "alpha".data "u".data [] [] [],
       RDoc.mk (11/20) true "beta".data "u".data [] [] []] (3/5) = false ∧
    (generateResponse (fun _ => GenReply.mk 200 ["answer".data])
      "What accommodations support students?".data
      [RDoc.mk (2/5) true "alpha".data "u".data [] [] [],
       RDoc.mk (11/20) true "beta".data "u".data [] [] []] []).apiCalled = true :=
  ⟨c3_gate_permissive_but_unused.1 _ (3/5)
      (by
        intro d hd
        rcases List.mem_cons.mp hd with h | h
        · rw [h]; show (2:ℚ)/5 ≤ 3/5; norm_num
        · rcases List.mem_cons.mp h with h | h
          · rw [h]; show (11:ℚ)/20 ≤ 3/5; norm_num
          · simp at h),
   c3_gate_permissive_but_unused.2 _ _ _ [] (by decide) (by simp)⟩

/-! ## Claim C10 -/

/-- Claim C10: general-chat detection is bare substring containment: for
every query whose lowercased text contains any greeting/gratitude/farewell
keyword anywhere — even inside an unrelated word — `generate_response`
returns the canned general-chat reply chosen by `_handle_general_chat` and
never reaches retrieval processing or the generation API; the result is
independent of the retrieved documents. -/
theorem c10_substring_general_chat (gen : Prompt → GenReply) (q : Str)
    (docs : List RDoc) (hist : List Turn) (kw : Str)
    (hkw : kw ∈ greetingWords ++ gratitudeWords ++ farewellWords)
    (hin : strIn kw (lowerStr q) = true) :
    generateResponse gen q docs hist = GenResult.mk (handleGeneralChat q) false := by
  have hg : isGeneralChat q = true := by
    unfold isGeneralChat
    rw [List.any_eq_true]
    exact ⟨kw, hkw, hin⟩
  unfold generateResponse
  rw [if_pos hg]

/-- Claim C10 witness: `"teaching"` contains `"hi"`, so it is treated as a
greeting and answered with the canned greeting reply, with no API call,
despite a retrieved document being available. -/
theorem c10_substring_general_chat_witness :
    generateResponse (fun _ => GenReply.mk 200 ["ans".data]) "teaching".data
      [RDoc.mk 1 true "body".data "u".data [] [] []] [] =
    GenResult.mk "Hello! How can I assist you with making education more accessible?".data
      false := by
  have h := c10_substring_general_chat (fun _ => GenReply.mk 200 ["ans".data])
    "teaching".data [RDoc.mk 1 true "body".data "u".data [] [] []] [] "hi".data
    (by decide) (by decide)
  rw [h]
  decide

/-! ## Claim C8 -/

/-- The cleaned body `_prepare_context` would include for a match: its
content split on newlines, header/blank lines dropped, re-joined. -/
def cleanedBody (d : RDoc) : Str := joinNl ((splitOnNl d.content).filter lineKept)

theorem prepGo_urls (docs : List RDoc) : ∀ seen : List Str,
    (prepGo docs seen).2.1 = specFirstSeenDedup seen (validUrls docs) := by
  induction docs with
  | nil => intro seen; rfl
  | cons d rest ih =>
    intro seen
    simp only [prepGo, validUrls, List.filterMap_cons]
    by_cases hA : d.hasMeta = true <;> by_cases hC : d.content = [] <;>
      by_cases hU : d.source_url = [] <;> by_cases hS : d.source_url ∈ seen <;>
      simp [hA, hC, hU, hS, specFirstSeenDedup, validUrls, ih]

theorem specFSD_spec (l : List Str) : ∀ seen : List Str,
    (specFirstSeenDedup seen l).Nodup ∧
    ∀ u ∈ specFirstSeenDedup seen l, seen.contains u = false := by
  induction l with
  | nil => intro seen; exact ⟨List.nodup_nil, by simp [specFirstSeenDedup]⟩
  | cons u rest ih =>
    intro seen
    by_cases hS : seen.contains u = true
    · simp only [specFirstSeenDedup, hS, if_true]
      exact ih seen
    · simp only [Bool.not_eq_true] at hS
      simp only [specFirstSeenDedup, hS, Bool.false_eq_true, if_false]
      constructor
      · refine List.nodup_cons.mpr ⟨?_, (ih (u :: seen)).1⟩
        intro hmem
        have := (ih (u :: seen)).2 u hmem
        simp [List.contains_cons] at this
      · intro v hv
        rcases List.mem_cons.mp hv with rfl | hv
        · exact hS
        · have := (ih (u :: seen)).2 v hv
          simp only [List.contains_cons, Bool.or_eq_false_iff] at this
          exact this.2

theorem mem_joinNlNl (x : Str) : ∀ (l : List Str), x ∈ l →
    ∃ pre post, joinNlNl l = pre ++ x ++ post := by
  intro l
  induction l with
  | nil => intro hx; simp at hx
  | cons y ys ih =>
    intro hx
    rcases List.mem_cons.mp hx with rfl | hx
    · cases ys with
      | nil => exact ⟨[], [], by simp [joinNlNl]⟩
      | cons z zs => exact ⟨[], '\n' :: '\n' :: joinNlNl (z :: zs), by simp [joinNlNl]⟩
    · obtain ⟨pre, post, hpp⟩ := ih hx
      cases ys with
      | nil => simp at hx
      | cons z zs =>
        refine ⟨y ++ '\n' :: '\n' :: pre, post, ?_⟩
        show joinNlNl (y :: z :: zs) = _
        rw [show joinNlNl (y :: z :: zs) = y ++ '\n' :: '\n' :: joinNlNl (z :: zs) from rfl,
          hpp]
        simp

theorem prepGo_content_mem (docs : List RDoc) : ∀ (seen : List Str) (d : RDoc),
    d ∈ docs → d.hasMeta = true →
    cleanedBody d = [] ∨ cleanedBody d ∈ (prepGo docs seen).1 := by
  induction docs with
  | nil => intro seen d hd; simp at hd
  | cons d0 rest ih =>
    intro seen d hd hm
    rcases List.mem_cons.mp hd with rfl | hd
    · by_cases hC : d.content.isEmpty = true
      · left
        have : d.content = [] := List.isEmpty_iff.mp hC
        simp [cleanedBody, this, splitOnNl, lineKept, pyStrip, joinNl]
      · by_cases hcl : ((splitOnNl d.content).filter lineKept).isEmpty = true
        · left
          have : (splitOnNl d.content).filter lineKept = [] := List.isEmpty_iff.mp hcl
          simp [cleanedBody, this, joinNl]
        · right
          simp only [prepGo, hm, hC, Bool.not_false, Bool.true_and, if_true, ite_true]
          by_cases hB : (!d.source_url.isEmpty && !(seen.contains d.source_url)) = true <;>
            simp only [hB, if_true, if_false, Bool.false_eq_true, ite_true, ite_false] <;>
          · rw [if_neg (by simp [hcl])]
            exact List.mem_append_left _ (by simp [cleanedBody])
    · simp only [prepGo]
      by_cases hA : (d0.hasMeta && !d0.content.isEmpty) = true
      · rw [if_pos hA]
        by_cases hB : (!d0.source_url.isEmpty && !(seen.contains d0.source_url)) = true
        · rw [if_pos hB]
          rcases ih (d0.source_url :: seen) d hd hm with h | h
          · exact Or.inl h
          · exact Or.inr (List.mem_append_right _ h)
        · rw [if_neg hB]
          rcases ih seen d hd hm with h | h
          · exact Or.inl h
          · exact Or.inr (List.mem_append_right _ h)
      · rw [if_neg hA]
        exact ih seen d hd hm
      

/-- Claim C8: `_prepare_context` deduplicates source urls first-seen-wins
(its `source_urls` equal the spec's stable first-seen dedup of the valid
url contributions, in first-occurrence order), the resulting list has no
duplicates, and the cleaned body text of every match with metadata is still
included in the assembled content. -/
theorem c8_dedup_first_seen (docs : List RDoc) :
    (prepareContext docs).source_urls = specFirstSeenDedup [] (validUrls docs) ∧
    (prepareContext docs).source_urls.Nodup ∧
    ∀ d ∈ docs, d.hasMeta = true →
      ∃ pre post, (prepareContext docs).content = pre ++ cleanedBody d ++ post := by
  refine ⟨prepGo_urls docs [], ?_, ?_⟩
  · rw [show (prepareContext docs).source_urls = (prepGo docs []).2.1 from rfl,
      prepGo_urls docs []]
    exact (specFSD_spec (validUrls docs) []).1
  · intro d hd hm
    rcases prepGo_content_mem docs [] d hd hm with hnil | hmem
    · exact ⟨(prepareContext docs).content, [], by simp [hnil]⟩
    · obtain ⟨pre, post, hpp⟩ := mem_joinNlNl _ _ hmem
      exact ⟨pre, post, by
        rw [show (prepareContext docs).content = joinNlNl (prepGo docs []).1 from rfl, hpp]⟩

def ctxDocA : RDoc := RDoc.mk 1 true "Line one".data "http://x".data "T1".data [] []

def ctxDocB : RDoc := RDoc.mk 1 true "Line two".data "http://x".data "T2".data [] []

/-- Claim C8 witness: two matches with the identical source url yield one
url entry and one title entry, while both bodies appear in the content. -/
theorem c8_dedup_first_seen_witness :
    (prepareContext [ctxDocA, ctxDocB]).source_urls = ["http://x".data] ∧
    (prepareContext [ctxDocA, ctxDocB]).source_titles = ["T1".data] ∧
    (prepareContext [ctxDocA, ctxDocB]).source_urls.Nodup ∧
    (prepareContext [ctxDocA, ctxDocB]).content =
      "Line one\n\n".data ++ cleanedBody ctxDocB ++ [] :=
  ⟨by decide, by decide, (c8_dedup_first_seen [ctxDocA, ctxDocB]).2.1, by decide⟩

/-! ## Claim C9 -/

theorem normSegs_nil : normSegs [] = [] := by
  rw [normSegs.eq_def]

theorem normSegs_paren_cons (u : Str) (rest : List Seg) :
    normSegs (Seg.paren u :: rest) = Seg.paren u :: normSegs rest := by
  rw [normSegs.eq_def]

theorem normSegs_bare_cons (u : Str) (rest : List Seg) :
    normSegs (Seg.bare u :: rest) = Seg.bare u :: normSegs rest := by
  rw [normSegs.eq_def]

theorem normSegs_link_paren_eq (lab t u : Str) (rest : List Seg)
    (hc : canonUrl u = canonUrl t) :
    normSegs (Seg.mdLink lab t :: Seg.paren u :: rest) =
      normSegs (Seg.mdLink lab t :: rest) := by
  rw [normSegs.eq_def]
  simp [hc]

theorem normSegs_link_paren_ne (lab t u : Str) (rest : List Seg)
    (hc : ¬canonUrl u = canonUrl t) :
    normSegs (Seg.mdLink lab t :: Seg.paren u :: rest) =
      Seg.mdLink lab t :: normSegs (Seg.paren u :: rest) := by
  rw [normSegs.eq_def]
  simp [hc]

theorem normSegs_link_bare_eq (lab t u : Str) (rest : List Seg)
    (hc : canonUrl u = canonUrl t) :
    normSegs (Seg.mdLink lab t :: Seg.bare u :: rest) =
      normSegs (Seg.mdLink lab t :: rest) := by
  rw [normSegs.eq_def]
  simp [hc]

theorem normSegs_link_bare_ne (lab t u : Str) (rest : List Seg)
    (hc : ¬canonUrl u = canonUrl t) :
    normSegs (Seg.mdLink lab t :: Seg.bare u :: rest) =
      Seg.mdLink lab t :: normSegs (Seg.bare u :: rest) := by
  rw [normSegs.eq_def]
  simp [hc]

theorem normSegs_cite_cons (u : Str) (rest : List Seg) :
    normSegs (Seg.cite u :: rest) = normSegs (Seg.mdLink u u :: rest) := by
  rw [normSegs.eq_def]

theorem normSegs_default_cons (s : Seg) (rest : List Seg)
    (h1 : ∀ (lab t u : Str) (r : List Seg),
      s = Seg.mdLink lab t → rest = Seg.paren u :: r → False)
    (h2 : ∀ (lab t u : Str) (r : List Seg),
      s = Seg.mdLink lab t → rest = Seg.bare u :: r → False)
    (h3 : ∀ u : Str, s = Seg.cite u → False) :
    normSegs (s :: rest) = s :: normSegs rest := by
  cases s with
  | plain s' => rw [normSegs.eq_def]
  | bare u => exact normSegs_bare_cons u rest
  | paren u => exact normSegs_paren_cons u rest
  | cite u => exact absurd rfl (h3 u)
  | mdLink lab t =>
    cases rest with
    | nil => rw [normSegs.eq_def]
    | cons b r =>
      cases b with
      | paren u => exact absurd rfl (h1 lab t u r rfl)
      | bare u => exact absurd rfl (h2 lab t u r rfl)
      | plain s' => rw [normSegs.eq_def]
      | mdLink lab' t' => rw [normSegs.eq_def]
      | cite u => rw [normSegs.eq_def]

/-- Whether a segment is a parenthetical or bare URL repetition. -/
def isPB : Seg → Bool
  | Seg.paren _ => true
  | Seg.bare _ => true
  | _ => false

theorem normSegs_head_pb (l : List Seg) :
    ∀ s : Seg, isPB s = true → (normSegs l).head? = some s → l.head? = some s := by
  induction l using normSegs.induct with
  | case1 => intro s hpb h; rw [normSegs_nil] at h; simp at h
  | case2 lab t u rest hc ih =>
    intro s hpb h
    rw [normSegs_link_paren_eq lab t u rest hc] at h
    have h2 := ih s hpb h
    simp only [List.head?_cons, Option.some_inj] at h2
    subst h2
    simp [isPB] at hpb
  | case3 lab t u rest hc ih =>
    intro s hpb h
    rw [normSegs_link_paren_ne lab t u rest hc] at h
    simp only [List.head?_cons, Option.some_inj] at h
    subst h
    simp [isPB] at hpb
  | case4 lab t u rest hc ih =>
    intro s hpb h
    rw [normSegs_link_bare_eq lab t u rest hc] at h
    have h2 := ih s hpb h
    simp only [List.head?_cons, Option.some_inj] at h2
    subst h2
    simp [isPB] at hpb
  | case5 lab t u rest hc ih =>
    intro s hpb h
    rw [normSegs_link_bare_ne lab t u rest hc] at h
    simp only [List.head?_cons, Option.some_inj] at h
    subst h
    simp [isPB] at hpb
  | case6 u rest ih =>
    intro s hpb h
    rw [normSegs_cite_cons] at h
    have h2 := ih s hpb h
    simp only [List.head?_cons, Option.some_inj] at h2
    subst h2
    simp [isPB] at hpb
  | case7 s rest h1 h2 h3 ih =>
    intro s' hpb h
    rw [normSegs_default_cons s rest (fun lab t u r e1 e2 => h1 lab t u r e1 e2)
      (fun lab t u r e1 e2 => h2 lab t u r e1 e2) (fun u e => h3 u e)] at h
    simp only [List.head?_cons, Option.some_inj] at h ⊢
    exact h

theorem normSegs_noCite (l : List Seg) : noCite (normSegs l) = true := by
  induction l using normSegs.induct with
  | case1 => rw [normSegs_nil]; rfl
  | case2 lab t u rest hc ih => rw [normSegs_link_paren_eq lab t u rest hc]; exact ih
  | case3 lab t u rest hc ih =>
    rw [normSegs_link_paren_ne lab t u rest hc]
    simp only [noCite, List.all_cons, Bool.and_eq_true] at ih ⊢
    exact ⟨by simp [isCiteSeg], ih⟩
  | case4 lab t u rest hc ih => rw [normSegs_link_bare_eq lab t u rest hc]; exact ih
  | case5 lab t u rest hc ih =>
    rw [normSegs_link_bare_ne lab t u rest hc]
    simp only [noCite, List.all_cons, Bool.and_eq_true] at ih ⊢
    exact ⟨by simp [isCiteSeg], ih⟩
  | case6 u rest ih => rw [normSegs_cite_cons]; exact ih
  | case7 s rest h1 h2 h3 ih =>
    rw [normSegs_default_cons s rest (fun lab t u r e1 e2 => h1 lab t u r e1 e2)
      (fun lab t u r e1 e2 => h2 lab t u r e1 e2) (fun u e => h3 u e)]
    simp only [noCite, List.all_cons, Bool.and_eq_true] at ih ⊢
    refine ⟨?_, ih⟩
    cases s with
    | cite u => exact absurd rfl (h3 u)
    | plain s' => rfl
    | bare u => rfl
    | paren u => rfl
    | mdLink lab t => rfl

theorem pairsOk_tail (a : Seg) (l : List Seg) (h : pairsOk (a :: l) = true) :
    pairsOk l = true := by
  cases l with
  | nil => rfl
  | cons b bs =>
    simp only [pairsOk, Bool.and_eq_true] at h
    exact h.2

theorem normSegs_pairsOk (l : List Seg) : pairsOk (normSegs l) = true := by
  induction l using normSegs.induct with
  | case1 => rw [normSegs_nil]; rfl
  | case2 lab t u rest hc ih => rw [normSegs_link_paren_eq lab t u rest hc]; exact ih
  | case3 lab t u rest hc ih =>
    rw [normSegs_link_paren_ne lab t u rest hc, normSegs_paren_cons]
    rw [normSegs_paren_cons] at ih
    simp only [pairsOk, Bool.and_eq_true]
    exact ⟨by simp [segPairOk, hc], ih⟩
  | case4 lab t u rest hc ih => rw [normSegs_link_bare_eq lab t u rest hc]; exact ih
  | case5 lab t u rest hc ih =>
    rw [normSegs_link_bare_ne lab t u rest hc, normSegs_bare_cons]
    rw [normSegs_bare_cons] at ih
    simp only [pairsOk, Bool.and_eq_true]
    exact ⟨by simp [segPairOk, hc], ih⟩
  | case6 u rest ih => rw [normSegs_cite_cons]; exact ih
  | case7 s rest h1 h2 h3 ih =>
    rw [normSegs_default_cons s rest (fun lab t u r e1 e2 => h1 lab t u r e1 e2)
      (fun lab t u r e1 e2 => h2 lab t u r e1 e2) (fun u e => h3 u e)]
    cases hns : normSegs rest with
    | nil => cases s <;> rfl
    | cons b bs =>
      rw [hns] at ih
      simp only [pairsOk, Bool.and_eq_true]
      refine ⟨?_, ih⟩
      cases s with
      | plain s' => rfl
      | bare u => rfl
      | paren u => rfl
      | cite u => exact absurd rfl (h3 u)
      | mdLink lab t =>
        cases b with
        | plain s' => rfl
        | mdLink lab' t' => rfl
        | cite u => rfl
        | paren u =>
          exfalso
          have hh : rest.head? = some (Seg.paren u) := by
            refine normSegs_head_pb rest (Seg.paren u) rfl ?_
            rw [hns]
            rfl
          cases rest with
          | nil => simp at hh
          | cons x xs =>
            simp only [List.head?_cons, Option.some_inj] at hh
            exact h1 lab t u xs rfl (by rw [hh])
        | bare u =>
          exfalso
          have hh : rest.head? = some (Seg.bare u) := by
            refine normSegs_head_pb rest (Seg.bare u) rfl ?_
            rw [hns]
            rfl
          cases rest with
          | nil => simp at hh
          | cons x xs =>
            simp only [List.head?_cons, Option.some_inj] at hh
            exact h2 lab t u xs rfl (by rw [hh])

theorem normSegs_fixed (l : List Seg) : noCite l = true → pairsOk l = true →
    normSegs l = l := by
  induction l using normSegs.induct with
  | case1 => intro _ _; exact normSegs_nil
  | case2 lab t u rest hc ih =>
    intro hnc hpo
    exfalso
    simp only [pairsOk, segPairOk, Bool.and_eq_true] at hpo
    simp [hc] at hpo
  | case3 lab t u rest hc ih =>
    intro hnc hpo
    rw [normSegs_link_paren_ne lab t u rest hc]
    rw [ih (by simp only [noCite, List.all_cons, Bool.and_eq_true] at hnc ⊢; exact hnc.2)
      (pairsOk_tail _ _ hpo)]
  | case4 lab t u rest hc ih =>
    intro hnc hpo
    exfalso
    simp only [pairsOk, segPairOk, Bool.and_eq_true] at hpo
    simp [hc] at hpo
  | case5 lab t u rest hc ih =>
    intro hnc hpo
    rw [normSegs_link_bare_ne lab t u rest hc]
    rw [ih (by simp only [noCite, List.all_cons, Bool.and_eq_true] at hnc ⊢; exact hnc.2)
      (pairsOk_tail _ _ hpo)]
  | case6 u rest ih =>
    intro hnc _
    exfalso
    simp [noCite, isCiteSeg] at hnc
  | case7 s rest h1 h2 h3 ih =>
    intro hnc hpo
    rw [normSegs_default_cons s rest (fun lab t u r e1 e2 => h1 lab t u r e1 e2)
      (fun lab t u r e1 e2 => h2 lab t u r e1 e2) (fun u e => h3 u e)]
    rw [ih (by simp only [noCite, List.all_cons, Bool.and_eq_true] at hnc ⊢; exact hnc.2)
      (pairsOk_tail _ _ hpo)]

theorem pairsOk_of_all_plain : ∀ l : List Seg, (∀ s ∈ l, isPlainSeg s = true) →
    pairsOk l = true := by
  intro l
  induction l with
  | nil => intro _; rfl
  | cons a rest ih =>
    intro h
    cases rest with
    | nil => rfl
    | cons b bs =>
      simp only [pairsOk, Bool.and_eq_true]
      refine ⟨?_, ih (fun s hs => h s (List.mem_cons_of_mem _ hs))⟩
      have ha := h a (by simp)
      cases a with
      | plain s' => rfl
      | bare u => simp [isPlainSeg] at ha
      | paren u => simp [isPlainSeg] at ha
      | cite u => simp [isPlainSeg] at ha
      | mdLink lab t => simp [isPlainSeg] at ha

/-- Claim C9 (modelled from the spec, the CitationNormalizer being absent
from `src/`): `normalize` is idempotent on every segment sequence, it is a
total function (never throws), and on text containing no URL or citation
segment at all it is the identity. -/
theorem c9_normalize_idempotent :
    (∀ l : List Seg, normSegs (normSegs l) = normSegs l) ∧
    (∀ l : List Seg, (∀ s ∈ l, isPlainSeg s = true) → normSegs l = l) := by
  constructor
  · intro l
    exact normSegs_fixed (normSegs l) (normSegs_noCite l) (normSegs_pairsOk l)
  · intro l hplain
    refine normSegs_fixed l ?_ (pairsOk_of_all_plain l hplain)
    rw [noCite, List.all_eq_true]
    intro s hs
    have := hplain s hs
    cases s with
    | plain s' => rfl
    | bare u => simp [isPlainSeg] at this
    | paren u => simp [isPlainSeg] at this
    | cite u => simp [isPlainSeg] at this
    | mdLink lab t => simp [isPlainSeg] at this

/-- Claim C9 witness: idempotence at a concrete citation sentence followed
by a duplicate parenthetical, and identity on a URL-free text. -/
theorem c9_normalize_idempotent_witness :
    normSegs (normSegs
      [Seg.cite "http://x.org".data, Seg.paren "http://x.org.".data,
       Seg.plain " done".data]) =
    normSegs
      [Seg.cite "http://x.org".data, Seg.paren "http://x.org.".data,
       Seg.plain " done".data] ∧
    normSegs [Seg.plain "no links here".data] = [Seg.plain "no links here".data] :=
  ⟨c9_normalize_idempotent.1 _,
   c9_normalize_idempotent.2 _ (by
      intro s hs
      simp only [List.mem_singleton] at hs
      subst hs
      rfl)⟩
